import Mathlib

/-!
Verification development for the LibertyLM client-side security utilities
(`SecureStorage` and `RateLimiter` in the crypto/rate-limiting utility module).

Modelling conventions:

* Byte sequences (`Uint8Array`, binary strings) are `List Nat`; in the running
  code each entry is a byte value `< 256`, but none of the properties below
  need that bound, so it is not imposed.
* JavaScript strings are Lean `String`s; `TextEncoder.encode` / `TextDecoder.decode`
  are modelled as the (injective) map to the list of character code points and
  its inverse.
* `window.crypto.subtle`'s AES-GCM is an external primitive.  It is modelled as
  an ideal authenticated cipher (symbolic / Dolev-Yao style): a ciphertext is a
  length-framed injective encoding of the triple (derived key, IV, plaintext),
  and decryption succeeds exactly on well-formed encryptions made under the
  same key and IV — the idealisation of a 128-bit authentication tag.
  PBKDF2 key derivation is likewise modelled as the injective constructor of a
  `GCMKey` record carrying the password, the salt and the fixed derivation
  constants (iteration count, key length), the idealisation of a
  collision-free derivation function.
* `btoa` (base64) is modelled concretely on the byte level, since the device
  fingerprint truncates the base64 string.  The blob returned by `encryptData`
  is modelled by its byte content `salt ++ iv ++ ciphertext`; the base64
  transport of that blob (`btoa` at the end of `encryptData`, `atob` at the
  start of `decryptData`) is a bijection between byte sequences and their
  base64 strings and is elided.
* Randomness (`crypto.getRandomValues`) and the clock (`Date.now()`) are passed
  to the modelled operations as explicit arguments.
* The `RateLimiter`'s `Map<string, number[]>` is modelled as a total function
  `String → List Int` (absent key = `[]`, matching the `|| []` reads in the
  source); `Map.set` is `Function.update`.  Methods that mutate `this.attempts`
  return the updated record; methods that only read return just their value.
-/

namespace LibertyLM

/-- Code points of a string, the byte content of an ASCII/binary JS string. -/
def strBytes (s : String) : List Nat := s.data.map Char.toNat

/-- UTF encoding of a plaintext string (`TextEncoder.encode`), modelled as the
injective map to character code points. -/
def textEncode (s : String) : List Nat := s.data.map Char.toNat

/-- Decoding of bytes back to a string (`TextDecoder.decode`), the inverse of
`textEncode` on its range. -/
def textDecode (l : List Nat) : String := String.mk (l.map Char.ofNat)

/-- The base64 digit alphabet used by `btoa`. -/
def B64_ALPHABET : List Char :=
  "ABCDEFGHIJKLMNOPQRSTUVWXYZabcdefghijklmnopqrstuvwxyz0123456789+/".toList

/-- The base64 digit for a 6-bit value. -/
def b64Char (n : Nat) : Char := B64_ALPHABET.getD n '='

/-- Base64 encoding of a byte sequence (`window.btoa`): each group of three
bytes becomes four base64 digits; a final group of one or two bytes is padded
with `=`. -/
def btoa : List Nat → List Char
  | [] => []
  | [a] => [b64Char (a / 4), b64Char (a % 4 * 16), '=', '=']
  | [a, b] => [b64Char (a / 4), b64Char (a % 4 * 16 + b / 16), b64Char (b % 16 * 4), '=']
  | a :: b :: c :: rest =>
    b64Char (a / 4) :: b64Char (a % 4 * 16 + b / 16) ::
      b64Char (b % 16 * 4 + c / 64) :: b64Char (c % 64) :: btoa rest

/-- The browser environment attributes `getDeviceFingerprint` reads:
`navigator.userAgent`, `navigator.language` (as byte strings) and
`screen.width`, `screen.height`. -/
structure Env where
  userAgent : List Nat
  language : List Nat
  screenWidth : Nat
  screenHeight : Nat

/-- Byte content of the template string
`` `${navigator.userAgent}-${navigator.language}-${screen.width}x${screen.height}` ``
(45 is the code of `-`, 120 the code of `x`). -/
def attrString (env : Env) : List Nat :=
  env.userAgent ++ [45] ++ env.language ++ [45] ++
    strBytes (Nat.repr env.screenWidth) ++ [120] ++ strBytes (Nat.repr env.screenHeight)

/-- `SecureStorage.getDeviceFingerprint`: base64-encode the attribute string and
keep the first 32 characters (`.slice(0, 32)`). -/
def getDeviceFingerprint (env : Env) : String :=
  String.mk ((btoa (attrString env)).take 32)

/-- `SecureStorage.KEY_LENGTH` (bits of the derived AES-GCM key). -/
def KEY_LENGTH : Nat := 256

/-- The PBKDF2 iteration count hard-coded in `SecureStorage.deriveKey`. -/
def PBKDF2_ITERATIONS : Nat := 100000

/-- A derived AES-GCM key.  The ideal model of PBKDF2: the key is the record of
the inputs and the derivation constants, so derivation is injective
(collision-freeness of the real derivation is idealised). -/
structure GCMKey where
  password : String
  salt : List Nat
  iterations : Nat
  keyLength : Nat
deriving DecidableEq

/-- `SecureStorage.deriveKey`: PBKDF2 over the password (the device
fingerprint) and the salt, with the fixed constants `iterations: 100000` and
`length: KEY_LENGTH = 256`. -/
def deriveKey (password : String) (salt : List Nat) : GCMKey :=
  ⟨password, salt, PBKDF2_ITERATIONS, KEY_LENGTH⟩

/-- Length-framed list segment: `lenc l rest` prepends `l`, preceded by its
length, to `rest`.  The frame makes concatenated segments uniquely parsable. -/
def lenc (l rest : List Nat) : List Nat := l.length :: (l ++ rest)

/-- The authentication tag of the ideal AES-GCM: an injective encoding of the
key (password bytes, salt, derivation constants), the IV and the plaintext.
Its injectivity is the idealisation of the unforgeability of the real 128-bit
GCM tag. -/
def authTag (key : GCMKey) (iv pt : List Nat) : List Nat :=
  lenc (strBytes key.password) (lenc key.salt (lenc iv (key.iterations :: key.keyLength :: pt)))

/-- Ideal `crypto.subtle.encrypt` for AES-GCM: the ciphertext determines the
plaintext (framed by its length) and carries the tag. -/
def subtleEncrypt (key : GCMKey) (iv pt : List Nat) : List Nat :=
  pt.length :: (pt ++ authTag key iv pt)

/-- Ideal `crypto.subtle.decrypt` for AES-GCM: recover the framed plaintext and
check the tag against the supplied key and IV; any mismatch (wrong key, wrong
IV, modified ciphertext, truncated input) rejects, modelling the thrown
`OperationError`. -/
def subtleDecrypt (key : GCMKey) (iv ct : List Nat) : Option (List Nat) :=
  match ct with
  | [] => none
  | n :: rest =>
    if rest.drop n = authTag key iv (rest.take n) then some (rest.take n) else none

/-- `SecureStorage.encryptData`, with the random 16-byte `salt` and 12-byte
`iv` drawn by `crypto.getRandomValues` passed explicitly.  Returns the byte
content of the blob `salt ++ iv ++ ciphertext` (the final `btoa` transport is
elided, see the module docstring). -/
def encryptData (env : Env) (salt iv : List Nat) (data : String) : List Nat :=
  let dataBuffer := textEncode data
  let key := deriveKey (getDeviceFingerprint env) salt
  let encryptedBuffer := subtleEncrypt key iv dataBuffer
  salt ++ iv ++ encryptedBuffer

/-- `SecureStorage.decryptData`: slice the blob into `salt` (bytes 0-16), `iv`
(bytes 16-28) and the ciphertext (bytes 28-), re-derive the key from the
current device fingerprint and the recovered salt, and decrypt.  `none` models
the `DecryptionError` (`Failed to decrypt data`) thrown by the catch-all. -/
def decryptData (env : Env) (blob : List Nat) : Option String :=
  let salt := blob.take 16
  let iv := (blob.drop 16).take 12
  let encrypted := blob.drop 28
  let key := deriveKey (getDeviceFingerprint env) salt
  (subtleDecrypt key iv encrypted).map textDecode

/-- Default lockout window of the `RateLimiter` constructor: 15 minutes in
milliseconds. -/
def RATE_WINDOW_MS : Int := 15 * 60 * 1000

/-- The `RateLimiter` class: the constructor parameters `maxAttempts` and
`windowMs`, and the `attempts` map from identifier to the recorded attempt
timestamps. -/
structure RateLimiter where
  maxAttempts : Nat
  windowMs : Int
  attempts : String → List Int

/-- A freshly constructed `new RateLimiter()` with the default parameters
`maxAttempts = 5`, `windowMs = 15 * 60 * 1000` and an empty attempts map. -/
def RateLimiter.new : RateLimiter :=
  ⟨5, RATE_WINDOW_MS, fun _ => []⟩

/-- `RateLimiter.isRateLimited(identifier)` at clock value `now`
(`Date.now()`): filter the identifier's attempts down to those inside the
window, store the filtered list back into the map, and report whether they
number at least `maxAttempts`.  Returns the boolean and the updated object. -/
def RateLimiter.isRateLimited (rl : RateLimiter) (now : Int) (identifier : String) :
    Bool × RateLimiter :=
  let attempts := rl.attempts identifier
  let validAttempts := attempts.filter (fun time => now - time < rl.windowMs)
  (decide (rl.maxAttempts ≤ validAttempts.length),
    ⟨rl.maxAttempts, rl.windowMs, Function.update rl.attempts identifier validAttempts⟩)

/-- `RateLimiter.recordAttempt(identifier)` at clock value `now`: push `now`
onto the identifier's attempt list. -/
def RateLimiter.recordAttempt (rl : RateLimiter) (now : Int) (identifier : String) :
    RateLimiter :=
  ⟨rl.maxAttempts, rl.windowMs,
    Function.update rl.attempts identifier (rl.attempts identifier ++ [now])⟩

/-- `RateLimiter.getRemainingAttempts(identifier)` at clock value `now`:
`Math.max(0, maxAttempts - validAttempts.length)`.  Reads only (no `Map.set`
in the source), so no updated object is returned. -/
def RateLimiter.getRemainingAttempts (rl : RateLimiter) (now : Int) (identifier : String) :
    Int :=
  let attempts := rl.attempts identifier
  let validAttempts := attempts.filter (fun time => now - time < rl.windowMs)
  max 0 ((rl.maxAttempts : Int) - validAttempts.length)

/-- `RateLimiter.getTimeUntilReset(identifier)` at clock value `now`: `0` for
an empty attempt list, otherwise `Math.max(0, Math.min(...attempts) + windowMs
- now)`.  Note the source takes the minimum over the raw stored list, without
pruning and without consulting the lockout state.  Reads only. -/
def RateLimiter.getTimeUntilReset (rl : RateLimiter) (now : Int) (identifier : String) :
    Int :=
  match rl.attempts identifier with
  | [] => 0
  | t :: ts => max 0 (ts.foldl min t + rl.windowMs - now)

/-- A sequence of `recordAttempt(identifier)` calls, one per timestamp in
`ts`, in order. -/
def RateLimiter.recordMany (rl : RateLimiter) (identifier : String) (ts : List Int) :
    RateLimiter :=
  ts.foldl (fun r t => r.recordAttempt t identifier) rl

/-! Helper lemmas about the encoding layers. -/

theorem textDecode_textEncode (s : String) : textDecode (textEncode s) = s := by
  apply String.ext
  simp [textDecode, textEncode, Function.comp_def, Char.ofNat_toNat]

theorem strBytes_inj {s t : String} (h : strBytes s = strBytes t) : s = t := by
  apply String.ext
  have : ∀ l l' : List Char, l.map Char.toNat = l'.map Char.toNat → l = l' := by
    intro l
    induction l with
    | nil => intro l' h'; cases l' <;> simp_all
    | cons c l ih =>
      intro l' h'
      cases l' with
      | nil => simp_all
      | cons d l'' =>
        simp only [List.map_cons, List.cons.injEq] at h'
        have hc : c = d := by
          have := h'.1
          calc c = Char.ofNat c.toNat := (Char.ofNat_toNat c).symm
            _ = Char.ofNat d.toNat := by rw [this]
            _ = d := Char.ofNat_toNat d
        exact List.cons.injEq .. |>.mpr ⟨hc, ih l'' h'.2⟩
  exact this s.data t.data h

theorem lenc_inj {a r b s : List Nat} (h : lenc a r = lenc b s) : a = b ∧ r = s := by
  unfold lenc at h
  have hlen : a.length = b.length := (List.cons.injEq .. |>.mp h).1
  have happ : a ++ r = b ++ s := (List.cons.injEq .. |>.mp h).2
  exact List.append_inj happ hlen

theorem authTag_inj {k1 k2 : GCMKey} {iv1 iv2 pt1 pt2 : List Nat}
    (h : authTag k1 iv1 pt1 = authTag k2 iv2 pt2) : k1 = k2 ∧ iv1 = iv2 ∧ pt1 = pt2 := by
  unfold authTag at h
  obtain ⟨hpw, h⟩ := lenc_inj h
  obtain ⟨hsalt, h⟩ := lenc_inj h
  obtain ⟨hiv, h⟩ := lenc_inj h
  have hit : k1.iterations = k2.iterations := (List.cons.injEq .. |>.mp h).1
  have h' := (List.cons.injEq .. |>.mp h).2
  have hkl : k1.keyLength = k2.keyLength := (List.cons.injEq .. |>.mp h').1
  have hpt : pt1 = pt2 := (List.cons.injEq .. |>.mp h').2
  refine ⟨?_, hiv, hpt⟩
  cases k1; cases k2
  simp only [GCMKey.mk.injEq]
  exact ⟨strBytes_inj hpw, hsalt, hit, hkl⟩

theorem length_authTag (key : GCMKey) (iv pt : List Nat) :
    (authTag key iv pt).length =
      (strBytes key.password).length + key.salt.length + iv.length + pt.length + 5 := by
  simp [authTag, lenc]
  omega

theorem authTag_ne_nil (key : GCMKey) (iv pt : List Nat) : authTag key iv pt ≠ [] := by
  intro h
  have := congrArg List.length h
  rw [length_authTag] at this
  simp at this

theorem subtleDecrypt_subtleEncrypt (key : GCMKey) (iv pt : List Nat) :
    subtleDecrypt key iv (subtleEncrypt key iv pt) = some pt := by
  simp [subtleDecrypt, subtleEncrypt, List.take_left' rfl, List.drop_left' rfl]

theorem subtleDecrypt_eq_some_iff {key : GCMKey} {iv ct pt : List Nat} :
    subtleDecrypt key iv ct = some pt ↔ ct = subtleEncrypt key iv pt := by
  constructor
  · intro h
    cases ct with
    | nil => simp [subtleDecrypt] at h
    | cons n rest =>
      simp only [subtleDecrypt] at h
      by_cases htag : rest.drop n = authTag key iv (rest.take n)
      · rw [if_pos htag] at h
        have hpt : rest.take n = pt := by injection h
        have hn : n ≤ rest.length := by
          by_contra hgt
          push_neg at hgt
          rw [List.drop_eq_nil_of_le (le_of_lt hgt)] at htag
          exact authTag_ne_nil key iv (rest.take n) htag.symm
        have hptlen : pt.length = n := by
          rw [← hpt, List.length_take]
          omega
        have hrest : rest = pt ++ authTag key iv pt := by
          conv_lhs => rw [← List.take_append_drop n rest]
          rw [htag, hpt]
        rw [subtleEncrypt, hptlen, hrest]
      · rw [if_neg htag] at h
        exact absurd h (by simp)
  · intro h
    rw [h]
    exact subtleDecrypt_subtleEncrypt key iv pt

theorem blob_take16 {salt : List Nat} (iv ct : List Nat) (hs : salt.length = 16) :
    (salt ++ iv ++ ct).take 16 = salt := by
  rw [List.append_assoc]
  exact List.take_left' hs

theorem blob_iv_slice {salt iv : List Nat} (ct : List Nat)
    (hs : salt.length = 16) (hiv : iv.length = 12) :
    ((salt ++ iv ++ ct).drop 16).take 12 = iv := by
  rw [List.append_assoc, List.drop_left' hs]
  exact List.take_left' hiv

theorem blob_drop28 {salt iv : List Nat} (ct : List Nat)
    (hs : salt.length = 16) (hiv : iv.length = 12) :
    (salt ++ iv ++ ct).drop 28 = ct := by
  have h : (salt ++ iv).length = 28 := by
    rw [List.length_append, hs, hiv]
  exact List.drop_left' h

/-- Evaluating `decryptData` on a well-formed blob: the slicing recovers the
three components. -/
theorem decryptData_on_blob {env : Env} {salt iv : List Nat} (ct : List Nat)
    (hs : salt.length = 16) (hiv : iv.length = 12) :
    decryptData env (salt ++ iv ++ ct) =
      (subtleDecrypt (deriveKey (getDeviceFingerprint env) salt) iv ct).map textDecode := by
  rw [decryptData]
  rw [blob_take16 iv ct hs, blob_iv_slice ct hs hiv, blob_drop28 ct hs hiv]

theorem subtleEncrypt_inj {k1 k2 : GCMKey} {iv1 iv2 pt1 pt2 : List Nat}
    (h : subtleEncrypt k1 iv1 pt1 = subtleEncrypt k2 iv2 pt2) :
    k1 = k2 ∧ iv1 = iv2 ∧ pt1 = pt2 := by
  have h' : lenc pt1 (authTag k1 iv1 pt1) = lenc pt2 (authTag k2 iv2 pt2) := h
  obtain ⟨hpt, htag⟩ := lenc_inj h'
  obtain ⟨hk, hiv, _⟩ := authTag_inj htag
  exact ⟨hk, hiv, hpt⟩

theorem deriveKey_inj {p1 p2 : String} {s1 s2 : List Nat}
    (h : deriveKey p1 s1 = deriveKey p2 s2) : p1 = p2 ∧ s1 = s2 := by
  have := GCMKey.mk.injEq .. |>.mp h
  exact ⟨this.1, this.2.1⟩

theorem set_ne {l : List Nat} {k b : Nat} (hk : k < l.length) (hb : b ≠ l.getD k 0) :
    l.set k b ≠ l := by
  intro heq
  apply hb
  have h1 : (l.set k b).getD k 0 = b := by
    rw [List.getD_eq_getElem?_getD, List.getElem?_set_self hk]
    rfl
  rw [heq] at h1
  exact h1.symm

theorem subtleDecrypt_map_none {key : GCMKey} {iv ct : List Nat}
    (h : ∀ p, ct ≠ subtleEncrypt key iv p) :
    (subtleDecrypt key iv ct).map textDecode = none := by
  cases hdec : subtleDecrypt key iv ct with
  | none => rfl
  | some p => exact absurd (subtleDecrypt_eq_some_iff.mp hdec) (h p)

/-- A blob too short to contain the 16-byte salt and the 12-byte IV always
fails to decrypt. -/
theorem decryptData_short_none (env : Env) (blob : List Nat) (hlen : blob.length < 28) :
    decryptData env blob = none := by
  simp only [decryptData]
  rw [show blob.drop 28 = [] from List.drop_eq_nil_of_le (by omega)]
  rfl

/-- Exact failure characterisation of `decryptData`: it fails precisely when
the blob is not of the form salt-IV-ciphertext with the ciphertext a valid
encryption under the key derived from the current fingerprint and that salt
(ideal-AEAD reading of an authentication-tag failure or primitive
rejection). -/
theorem decryptData_none_iff (env : Env) (blob : List Nat) :
    decryptData env blob = none ↔
      ¬ ∃ salt iv pt, salt.length = 16 ∧ iv.length = 12 ∧
        blob = salt ++ iv ++ subtleEncrypt (deriveKey (getDeviceFingerprint env) salt) iv pt := by
  constructor
  · intro hnone hex
    obtain ⟨salt, iv, pt, hs, hiv, hblob⟩ := hex
    subst hblob
    rw [decryptData_on_blob _ hs hiv, subtleDecrypt_subtleEncrypt] at hnone
    exact absurd hnone (by simp)
  · intro hnex
    by_contra hne
    apply hnex
    cases hdec : subtleDecrypt (deriveKey (getDeviceFingerprint env) (blob.take 16))
        ((blob.drop 16).take 12) (blob.drop 28) with
    | none =>
      exact absurd (by simp only [decryptData]; rw [hdec]; rfl) hne
    | some p =>
      have hct := subtleDecrypt_eq_some_iff.mp hdec
      have hne_nil : blob.drop 28 ≠ [] := by
        rw [hct, subtleEncrypt]
        exact List.cons_ne_nil _ _
      have h28 : 28 < blob.length := by
        by_contra hle
        push_neg at hle
        exact hne_nil (List.drop_eq_nil_of_le hle)
      refine ⟨blob.take 16, (blob.drop 16).take 12, p, ?_, ?_, ?_⟩
      · rw [List.length_take]
        omega
      · rw [List.length_take, List.length_drop]
        omega
      · rw [← hct]
        conv_lhs => rw [← List.take_append_drop 16 blob]
        rw [List.append_assoc]
        congr 1
        have hdd : blob.drop 28 = (blob.drop 16).drop 12 := by
          rw [List.drop_drop]
        rw [hdd, List.take_append_drop]

/-- Flipping any single byte of a valid blob makes `decryptData` fail: changed
salt or IV bytes change the derived key or nonce, a changed length frame or
plaintext or tag byte breaks the authentication check. -/
theorem decryptData_set_ne_none (env : Env) (salt iv : List Nat) (data : String) (k b : Nat)
    (hs : salt.length = 16) (hiv : iv.length = 12)
    (hk : k < (encryptData env salt iv data).length)
    (hb : b ≠ (encryptData env salt iv data).getD k 0) :
    decryptData env ((encryptData env salt iv data).set k b) = none := by
  have hsi : (salt ++ iv).length = 28 := by
    rw [List.length_append, hs, hiv]
  by_cases hk28 : k < 28
  · by_cases hk16 : k < 16
    · -- the flip lands in the salt: the re-derived key differs
      have hset : (encryptData env salt iv data).set k b =
          salt.set k b ++ iv ++
            subtleEncrypt (deriveKey (getDeviceFingerprint env) salt) iv (textEncode data) := by
        simp only [encryptData]
        rw [List.set_append_left k b (by omega), List.set_append_left k b (by omega)]
      have hgd : (encryptData env salt iv data).getD k 0 = salt.getD k 0 := by
        simp only [encryptData]
        rw [List.getD_append _ _ 0 k (by omega)]
        exact List.getD_append _ _ 0 k (by omega)
      rw [hset, decryptData_on_blob _ (by rw [List.length_set]; exact hs) hiv]
      apply subtleDecrypt_map_none
      intro p hct
      obtain ⟨hkey, -, -⟩ := subtleEncrypt_inj hct
      have hsalt_eq : salt = salt.set k b := (deriveKey_inj hkey).2
      exact set_ne (by omega) (by rw [← hgd]; exact hb) hsalt_eq.symm
    · -- the flip lands in the IV
      push_neg at hk16
      have hset : (encryptData env salt iv data).set k b =
          salt ++ iv.set (k - 16) b ++
            subtleEncrypt (deriveKey (getDeviceFingerprint env) salt) iv (textEncode data) := by
        simp only [encryptData]
        rw [List.set_append_left k b (by omega), List.set_append_right k b (by omega), hs]
      have hgd : (encryptData env salt iv data).getD k 0 = iv.getD (k - 16) 0 := by
        simp only [encryptData]
        rw [List.getD_append _ _ 0 k (by omega)]
        rw [List.getD_append_right _ _ 0 k (by omega), hs]
      rw [hset, decryptData_on_blob _ hs (by rw [List.length_set]; exact hiv)]
      apply subtleDecrypt_map_none
      intro p hct
      obtain ⟨-, hivq, -⟩ := subtleEncrypt_inj hct
      exact set_ne (k := k - 16) (by omega) (by rw [← hgd]; exact hb) hivq.symm
  · -- the flip lands in the ciphertext
    push_neg at hk28
    have hset : (encryptData env salt iv data).set k b =
        salt ++ iv ++
          (subtleEncrypt (deriveKey (getDeviceFingerprint env) salt) iv
            (textEncode data)).set (k - 28) b := by
      simp only [encryptData]
      rw [List.set_append_right k b (by omega), hsi]
    have hgd : (encryptData env salt iv data).getD k 0 =
        (subtleEncrypt (deriveKey (getDeviceFingerprint env) salt) iv
          (textEncode data)).getD (k - 28) 0 := by
      simp only [encryptData]
      rw [List.getD_append_right _ _ 0 k (by omega), hsi]
    rw [hset]
    cases hj : k - 28 with
    | zero =>
      -- the flip hits the plaintext-length frame
      rw [subtleEncrypt, List.set_cons_zero,
        decryptData_on_blob _ hs hiv]
      apply subtleDecrypt_map_none
      intro p hct
      rw [subtleEncrypt] at hct
      have hhead : b = p.length := (List.cons.injEq .. |>.mp hct).1
      have htail := (List.cons.injEq .. |>.mp hct).2
      have hlen := congrArg List.length htail
      rw [List.length_append, List.length_append, length_authTag, length_authTag] at hlen
      have hbne : b ≠ (textEncode data).length := by
        rw [hgd, hj, subtleEncrypt, List.getD_cons_zero] at hb
        exact hb
      omega
    | succ i =>
      rw [subtleEncrypt, List.set_cons_succ, decryptData_on_blob _ hs hiv]
      have hgd' : (encryptData env salt iv data).getD k 0 =
          ((textEncode data) ++
            authTag (deriveKey (getDeviceFingerprint env) salt) iv (textEncode data)).getD i 0 := by
        rw [hgd, hj, subtleEncrypt, List.getD_cons_succ]
      have hilt : i < (textEncode data).length +
          (authTag (deriveKey (getDeviceFingerprint env) salt) iv (textEncode data)).length := by
        have hkl : k < 28 + 1 + (textEncode data).length +
            (authTag (deriveKey (getDeviceFingerprint env) salt) iv (textEncode data)).length := by
          have := hk
          simp only [encryptData, subtleEncrypt, List.length_append, List.length_cons] at this
          omega
        omega
      by_cases hip : i < (textEncode data).length
      · -- the flip hits a plaintext byte: the tag no longer matches
        rw [List.set_append_left i b hip]
        apply subtleDecrypt_map_none
        intro p hct
        rw [subtleEncrypt] at hct
        have hhead : (textEncode data).length = p.length := (List.cons.injEq .. |>.mp hct).1
        have htail := (List.cons.injEq .. |>.mp hct).2
        obtain ⟨hpt, htag⟩ := List.append_inj htail (by rw [List.length_set]; exact hhead)
        obtain ⟨-, -, hpq⟩ := authTag_inj htag
        rw [← hpq] at hpt
        apply set_ne (l := textEncode data) (k := i) hip ?_ hpt
        rw [← List.getD_append _ _ 0 i hip, ← hgd']
        exact hb
      · -- the flip hits a tag byte: the stored tag no longer matches
        push_neg at hip
        rw [List.set_append_right i b hip]
        apply subtleDecrypt_map_none
        intro p hct
        rw [subtleEncrypt] at hct
        have hhead : (textEncode data).length = p.length := (List.cons.injEq .. |>.mp hct).1
        have htail := (List.cons.injEq .. |>.mp hct).2
        obtain ⟨hpt, htag⟩ := List.append_inj htail hhead
        rw [← hpt] at htag
        apply set_ne (l := authTag (deriveKey (getDeviceFingerprint env) salt) iv (textEncode data))
          (k := i - (textEncode data).length) (by omega) ?_ htag
        rw [← List.getD_append_right _ _ 0 i hip, ← hgd']
        exact hb

/-- C2: decryptData fails exactly when the blob is malformed (too short for
the 16-byte salt and 12-byte IV), or the ideal authentication check rejects
(tampered bytes, wrong key, fingerprint mismatch, or rejected input); in
particular a blob shorter than 28 bytes fails, failure is equivalent to the
blob not being a well-formed encryption under the current fingerprint, and
every single-byte flip of a valid blob fails and never yields plaintext. -/
theorem decryptData_error_conditions (env : Env) :
    (∀ blob : List Nat, blob.length < 28 → decryptData env blob = none) ∧
      (∀ blob : List Nat, decryptData env blob = none ↔
        ¬ ∃ salt iv pt, salt.length = 16 ∧ iv.length = 12 ∧
          blob = salt ++ iv ++ subtleEncrypt (deriveKey (getDeviceFingerprint env) salt) iv pt) ∧
      (∀ (salt iv : List Nat) (data : String) (k b : Nat),
        salt.length = 16 → iv.length = 12 →
        k < (encryptData env salt iv data).length →
        b ≠ (encryptData env salt iv data).getD k 0 →
        decryptData env ((encryptData env salt iv data).set k b) = none) :=
  ⟨fun blob h => decryptData_short_none env blob h,
    fun blob => decryptData_none_iff env blob,
    fun salt iv data k b hs hiv hk hb =>
      decryptData_set_ne_none env salt iv data k b hs hiv hk hb⟩

/-- Witness for C2: a concrete short blob fails, and a concrete single-byte
flip of a concrete valid blob fails. -/
theorem decryptData_error_conditions_witness :
    decryptData (Env.mk [77] [101] 800 600) [0, 1, 2] = none ∧
      decryptData (Env.mk [77] [101] 800 600)
        ((encryptData (Env.mk [77] [101] 800 600)
          (List.range 16) (List.range 12) "ab").set 20 250) = none :=
  ⟨(decryptData_error_conditions (Env.mk [77] [101] 800 600)).1 [0, 1, 2] (by decide),
    (decryptData_error_conditions (Env.mk [77] [101] 800 600)).2.2 (List.range 16)
      (List.range 12) "ab" 20 250 (by decide) (by decide) (by decide) (by decide)⟩

/-- C1: for every plaintext string, with the device fingerprint held fixed,
decrypting the result of encrypting it returns the original plaintext, for any
16-byte salt and 12-byte IV drawn by the encryptor. -/
theorem encryptData_decryptData_roundTrip (env : Env) (salt iv : List Nat) (data : String)
    (hs : salt.length = 16) (hiv : iv.length = 12) :
    decryptData env (encryptData env salt iv data) = some data := by
  simp only [encryptData]
  rw [decryptData_on_blob _ hs hiv, subtleDecrypt_subtleEncrypt]
  simp [textDecode_textEncode]

/-- Witness for C1 at a concrete environment, salt, IV and plaintext. -/
theorem encryptData_decryptData_roundTrip_witness :
    decryptData (Env.mk [77, 111, 122] [101, 110] 800 600)
      (encryptData (Env.mk [77, 111, 122] [101, 110] 800 600)
        (List.range 16) (List.range 12) "ab") = some "ab" :=
  encryptData_decryptData_roundTrip (Env.mk [77, 111, 122] [101, 110] 800 600)
    (List.range 16) (List.range 12) "ab" (by decide) (by decide)

/-- C3: a blob produced while the device fingerprint was A fails to decrypt in
an environment whose device fingerprint is B, whenever A and B differ. -/
theorem decryptData_fingerprint_binding (envA envB : Env) (salt iv : List Nat) (data : String)
    (hs : salt.length = 16) (hiv : iv.length = 12)
    (hfp : getDeviceFingerprint envA ≠ getDeviceFingerprint envB) :
    decryptData envB (encryptData envA salt iv data) = none := by
  simp only [encryptData]
  rw [decryptData_on_blob _ hs hiv]
  cases h : subtleDecrypt (deriveKey (getDeviceFingerprint envB) salt) iv
      (subtleEncrypt (deriveKey (getDeviceFingerprint envA) salt) iv (textEncode data)) with
  | none => rfl
  | some pt =>
    rw [subtleDecrypt_eq_some_iff] at h
    obtain ⟨hk, -, -⟩ := subtleEncrypt_inj h
    exact absurd (deriveKey_inj hk).1 hfp

/-- Witness for C3: two concrete environments with distinct fingerprints. -/
theorem decryptData_fingerprint_binding_witness :
    decryptData (Env.mk [78] [101] 800 600)
      (encryptData (Env.mk [77] [101] 800 600) (List.range 16) (List.range 12) "k") = none :=
  decryptData_fingerprint_binding (Env.mk [77] [101] 800 600) (Env.mk [78] [101] 800 600)
    (List.range 16) (List.range 12) "k" (by decide) (by decide) (by decide)

/-- C4: two encryptions of the same plaintext that use different randomness
(different salt or different IV, as freshly drawn salt and IV are on every
call) produce different blobs. -/
theorem encryptData_nondeterministic (env : Env) (salt1 iv1 salt2 iv2 : List Nat)
    (data : String) (hs1 : salt1.length = 16) (hs2 : salt2.length = 16)
    (hiv1 : iv1.length = 12) (hiv2 : iv2.length = 12)
    (hne : salt1 ≠ salt2 ∨ iv1 ≠ iv2) :
    encryptData env salt1 iv1 data ≠ encryptData env salt2 iv2 data := by
  intro h
  simp only [encryptData] at h
  rw [List.append_assoc, List.append_assoc] at h
  obtain ⟨hsalt, h2⟩ := List.append_inj h (by rw [hs1, hs2])
  obtain ⟨hiv, -⟩ := List.append_inj h2 (by rw [hiv1, hiv2])
  rcases hne with hne | hne
  · exact hne hsalt
  · exact hne hiv

/-- Witness for C4: same plaintext, two concrete salt/IV draws differing only
in the salt. -/
theorem encryptData_nondeterministic_witness :
    encryptData (Env.mk [77] [101] 800 600) (List.range 16) (List.range 12) "ab" ≠
      encryptData (Env.mk [77] [101] 800 600) (List.map (fun n => n + 1) (List.range 16))
        (List.range 12) "ab" :=
  encryptData_nondeterministic (Env.mk [77] [101] 800 600) (List.range 16) (List.range 12)
    (List.map (fun n => n + 1) (List.range 16)) (List.range 12) "ab"
    (by decide) (by decide) (by decide) (by decide) (Or.inl (by decide))

/-- C5: key derivation uses the fixed constants 100000 PBKDF2 iterations
(at least the 100,000 target) and a 256-bit key, and the decrypt path
(which re-derives from the first 16 bytes of the blob) obtains exactly the
key the encrypt path used. -/
theorem deriveKey_fixed_constants (env : Env) (salt iv : List Nat) (data password : String)
    (hs : salt.length = 16) :
    (deriveKey password salt).iterations = 100000 ∧
      100000 ≤ (deriveKey password salt).iterations ∧
      (deriveKey password salt).keyLength = 256 ∧
      deriveKey (getDeviceFingerprint env) ((encryptData env salt iv data).take 16) =
        deriveKey (getDeviceFingerprint env) salt := by
  refine ⟨rfl, le_refl _, rfl, ?_⟩
  simp only [encryptData]
  rw [blob_take16 _ _ hs]

/-- Witness for C5 at a concrete environment and salt. -/
theorem deriveKey_fixed_constants_witness :
    (deriveKey "pw" (List.range 16)).iterations = 100000 ∧
      100000 ≤ (deriveKey "pw" (List.range 16)).iterations ∧
      (deriveKey "pw" (List.range 16)).keyLength = 256 ∧
      deriveKey (getDeviceFingerprint (Env.mk [77] [101] 800 600))
          ((encryptData (Env.mk [77] [101] 800 600) (List.range 16) (List.range 12) "ab").take 16) =
        deriveKey (getDeviceFingerprint (Env.mk [77] [101] 800 600)) (List.range 16) :=
  deriveKey_fixed_constants (Env.mk [77] [101] 800 600) (List.range 16) (List.range 12)
    "ab" "pw" (by decide)

/-! Helper lemmas about the rate limiter. -/

theorem recordMany_maxAttempts (rl : RateLimiter) (identifier : String) (ts : List Int) :
    (rl.recordMany identifier ts).maxAttempts = rl.maxAttempts := by
  induction ts generalizing rl with
  | nil => rfl
  | cons t ts ih => exact ih (rl.recordAttempt t identifier)

theorem recordMany_windowMs (rl : RateLimiter) (identifier : String) (ts : List Int) :
    (rl.recordMany identifier ts).windowMs = rl.windowMs := by
  induction ts generalizing rl with
  | nil => rfl
  | cons t ts ih => exact ih (rl.recordAttempt t identifier)

theorem recordMany_attempts_self (rl : RateLimiter) (identifier : String) (ts : List Int) :
    (rl.recordMany identifier ts).attempts identifier = rl.attempts identifier ++ ts := by
  induction ts generalizing rl with
  | nil => simp [RateLimiter.recordMany]
  | cons t ts ih =>
    calc (rl.recordMany identifier (t :: ts)).attempts identifier
        = (rl.recordAttempt t identifier).attempts identifier ++ ts :=
          ih (rl.recordAttempt t identifier)
      _ = (rl.attempts identifier ++ [t]) ++ ts := by
          simp [RateLimiter.recordAttempt, Function.update_same]
      _ = rl.attempts identifier ++ (t :: ts) := by
          rw [List.append_assoc]
          rfl

theorem foldl_min_spec (t : Int) (ts : List Int) :
    ts.foldl min t ∈ t :: ts ∧ ∀ u ∈ t :: ts, ts.foldl min t ≤ u := by
  induction ts generalizing t with
  | nil => simp
  | cons s ts ih =>
    obtain ⟨hmem, hle⟩ := ih (min t s)
    have hts : (s :: ts).foldl min t = ts.foldl min (min t s) := rfl
    constructor
    · rw [hts]
      rcases List.mem_cons.mp hmem with h | h
      · rcases min_choice t s with hc | hc
        · rw [h, hc]
          exact List.mem_cons_self _ _
        · rw [h, hc]
          exact List.mem_cons_of_mem _ (List.mem_cons_self _ _)
      · exact List.mem_cons_of_mem _ (List.mem_cons_of_mem _ h)
    · intro u hu
      rw [hts]
      rcases List.mem_cons.mp hu with h | h
      · rw [h]
        exact le_trans (hle (min t s) (List.mem_cons_self _ _)) (min_le_left t s)
      · rcases List.mem_cons.mp h with h' | h'
        · rw [h']
          exact le_trans (hle (min t s) (List.mem_cons_self _ _)) (min_le_right t s)
        · exact hle u (List.mem_cons_of_mem _ h')

/-- C6: the rate limiter's lockout check prunes to the 15-minute window and
compares against the max-attempts threshold 5; in a fresh window, after
exactly `maxAttempts` recorded failures it reports a lockout and after
`maxAttempts - 1` it does not. -/
theorem isRateLimited_lockout_boundary :
    RateLimiter.new.maxAttempts = 5 ∧
      RateLimiter.new.windowMs = 15 * 60 * 1000 ∧
      (∀ (rl : RateLimiter) (now : Int) (identifier : String),
        ((rl.isRateLimited now identifier).1 = true ↔
          rl.maxAttempts ≤
            ((rl.attempts identifier).filter (fun time => now - time < rl.windowMs)).length)) ∧
      (∀ (rl : RateLimiter) (identifier : String) (ts : List Int) (now : Int),
        rl.attempts identifier = [] →
        (∀ t ∈ ts, now - t < rl.windowMs) →
        (((rl.recordMany identifier ts).isRateLimited now identifier).1 = true ↔
          rl.maxAttempts ≤ ts.length)) := by
  refine ⟨rfl, rfl, ?_, ?_⟩
  · intro rl now identifier
    simp [RateLimiter.isRateLimited]
  · intro rl identifier ts now hempty hvalid
    have hatt : (rl.recordMany identifier ts).attempts identifier = ts := by
      rw [recordMany_attempts_self, hempty]
      rfl
    simp only [RateLimiter.isRateLimited, hatt, recordMany_maxAttempts, recordMany_windowMs]
    rw [show ts.filter (fun time => decide (now - time < rl.windowMs)) = ts from
      List.filter_eq_self.mpr (fun a ha => decide_eq_true (hvalid a ha))]
    simp

/-- Witness for C6: five failures at time 0 lock the identifier out at time 0,
four do not. -/
theorem isRateLimited_lockout_boundary_witness :
    ((RateLimiter.new.recordMany "a" [0, 0, 0, 0, 0]).isRateLimited 0 "a").1 = true ∧
      ¬ ((RateLimiter.new.recordMany "a" [0, 0, 0, 0]).isRateLimited 0 "a").1 = true :=
  ⟨(isRateLimited_lockout_boundary.2.2.2 RateLimiter.new "a" [0, 0, 0, 0, 0] 0 rfl
      (by decide)).mpr (by decide),
    fun h => absurd ((isRateLimited_lockout_boundary.2.2.2 RateLimiter.new "a" [0, 0, 0, 0] 0 rfl
      (by decide)).mp h) (by decide)⟩

/-- C7, counterexample to the claim as stated: one single failure recorded at
time 0 leaves the identifier far from locked out, yet `getTimeUntilReset` at
time 0 returns the full 15-minute window rather than 0. -/
theorem getTimeUntilReset_nonzero_when_not_locked :
    ((RateLimiter.new.recordAttempt 0 "a").isRateLimited 0 "a").1 = false ∧
      (RateLimiter.new.recordAttempt 0 "a").getTimeUntilReset 0 "a" = 900000 := by
  constructor
  · decide
  · decide

/-- C7 as amended: `getTimeUntilReset` returns `max 0 (oldest + windowMs -
now)` where `oldest` is the minimum over all stored timestamps of the
identifier (pruned or not, locked out or not), and `0` when none are
stored. -/
theorem getTimeUntilReset_characterization (rl : RateLimiter) (now : Int) (identifier : String) :
    (rl.attempts identifier = [] → rl.getTimeUntilReset now identifier = 0) ∧
      (∀ m, m ∈ rl.attempts identifier → (∀ t ∈ rl.attempts identifier, m ≤ t) →
        rl.getTimeUntilReset now identifier = max 0 (m + rl.windowMs - now)) := by
  constructor
  · intro h
    simp [RateLimiter.getTimeUntilReset, h]
  · intro m hmem hle
    cases h : rl.attempts identifier with
    | nil => rw [h] at hmem; exact absurd hmem (List.not_mem_nil m)
    | cons a ts =>
      rw [h] at hmem hle
      obtain ⟨hfmem, hfle⟩ := foldl_min_spec a ts
      have hmeq : ts.foldl min a = m :=
        le_antisymm (hfle m hmem) (hle _ hfmem)
      simp only [RateLimiter.getTimeUntilReset, h, hmeq]

/-- Witness for C7's amended theorem: a single failure at time 5, queried at
time 7. -/
theorem getTimeUntilReset_characterization_witness :
    (RateLimiter.new.recordAttempt 5 "a").getTimeUntilReset 7 "a" = max 0 (5 + 900000 - 7) :=
  (getTimeUntilReset_characterization (RateLimiter.new.recordAttempt 5 "a") 7 "a").2 5
    (by decide) (by decide)

/-- C8: the lazy pruning in `isRateLimited` stores back exactly the timestamps
still inside the trailing window — it removes only entries outside the window,
never one inside it — and the lockout verdict is determined by the count of
in-window timestamps. -/
theorem isRateLimited_prune_invariant (rl : RateLimiter) (now : Int) (identifier : String) :
    ((rl.isRateLimited now identifier).2).attempts identifier =
        (rl.attempts identifier).filter (fun time => now - time < rl.windowMs) ∧
      (∀ t ∈ rl.attempts identifier, now - t < rl.windowMs →
        t ∈ ((rl.isRateLimited now identifier).2).attempts identifier) ∧
      (∀ t ∈ ((rl.isRateLimited now identifier).2).attempts identifier,
        t ∈ rl.attempts identifier ∧ now - t < rl.windowMs) ∧
      ((rl.isRateLimited now identifier).1 = true ↔
        rl.maxAttempts ≤
          ((rl.attempts identifier).filter (fun time => now - time < rl.windowMs)).length) := by
  refine ⟨?_, ?_, ?_, ?_⟩
  · simp [RateLimiter.isRateLimited, Function.update_same]
  · intro t hmem hwin
    simp [RateLimiter.isRateLimited, Function.update_same, List.mem_filter]
    exact ⟨hmem, hwin⟩
  · intro t hmem
    simp [RateLimiter.isRateLimited, Function.update_same, List.mem_filter] at hmem
    exact hmem
  · simp [RateLimiter.isRateLimited]

/-- Witness for C8: an in-window timestamp survives the pruning store. -/
theorem isRateLimited_prune_invariant_witness :
    (5 : Int) ∈ (((RateLimiter.new.recordAttempt 5 "a").isRateLimited 7 "a").2).attempts "a" :=
  (isRateLimited_prune_invariant (RateLimiter.new.recordAttempt 5 "a") 7 "a").2.1 5
    (by decide) (by decide)

/-- C9: operations on one identifier leave every other identifier's stored
attempt list unchanged.  (`getRemainingAttempts` and `getTimeUntilReset`
perform no store at all — in this embedding they return only their value — so
the two storing operations are the ones with frame content.) -/
theorem rateLimiter_frame_other_identifiers (rl : RateLimiter) (now : Int)
    (id1 id2 : String) (hne : id2 ≠ id1) :
    (rl.recordAttempt now id1).attempts id2 = rl.attempts id2 ∧
      ((rl.isRateLimited now id1).2).attempts id2 = rl.attempts id2 :=
  ⟨Function.update_noteq hne _ _, Function.update_noteq hne _ _⟩

/-- Witness for C9 at two concrete distinct identifiers. -/
theorem rateLimiter_frame_other_identifiers_witness :
    (RateLimiter.new.recordAttempt 0 "a").attempts "b" = RateLimiter.new.attempts "b" ∧
      ((RateLimiter.new.isRateLimited 0 "a").2).attempts "b" = RateLimiter.new.attempts "b" :=
  rateLimiter_frame_other_identifiers RateLimiter.new 0 "a" "b" (by decide)

/-! Helper lemmas about base64 encoding. -/

theorem btoa_append : ∀ (l r : List Nat), l.length % 3 = 0 →
    btoa (l ++ r) = btoa l ++ btoa r
  | [], _, _ => rfl
  | [_], _, h => by simp at h
  | [_, _], _, h => by simp at h
  | a :: b :: c :: rest, r, h => by
    have h' : rest.length % 3 = 0 := by
      simp only [List.length_cons] at h
      omega
    simp only [List.cons_append, btoa]
    rw [show rest.append r = rest ++ r from rfl, btoa_append rest r h']

theorem btoa_length : ∀ l : List Nat, l.length % 3 = 0 →
    (btoa l).length = l.length / 3 * 4
  | [], _ => rfl
  | [_], h => by simp at h
  | [_, _], h => by simp at h
  | a :: b :: c :: rest, h => by
    have h' : rest.length % 3 = 0 := by
      simp only [List.length_cons] at h
      omega
    simp only [btoa, List.length_cons]
    rw [btoa_length rest h']
    omega

/-- C10: the device fingerprint keeps only the first 32 base64 characters of
the encoded attribute string, which are a function of its first 24 bytes, so
two environments whose attribute strings agree on the first 24 bytes get the
same fingerprint and, for any fixed salt, the same derived key. -/
theorem getDeviceFingerprint_take24_agreement (envA envB : Env)
    (h : (attrString envA).take 24 = (attrString envB).take 24) :
    getDeviceFingerprint envA = getDeviceFingerprint envB ∧
      ∀ salt : List Nat,
        deriveKey (getDeviceFingerprint envA) salt =
          deriveKey (getDeviceFingerprint envB) salt := by
  have hfp : getDeviceFingerprint envA = getDeviceFingerprint envB := by
    unfold getDeviceFingerprint
    congr 1
    by_cases hlen : 24 ≤ (attrString envA).length
    · have hlenB : 24 ≤ (attrString envB).length := by
        have hlt := congrArg List.length h
        rw [List.length_take, List.length_take] at hlt
        omega
      have h24A : ((attrString envA).take 24).length = 24 := by
        rw [List.length_take]
        omega
      have h24B : ((attrString envB).take 24).length = 24 := by
        rw [List.length_take]
        omega
      have hsplitA : btoa (attrString envA) =
          btoa ((attrString envA).take 24) ++ btoa ((attrString envA).drop 24) := by
        conv_lhs => rw [← List.take_append_drop 24 (attrString envA)]
        exact btoa_append _ _ (by rw [h24A])
      have hsplitB : btoa (attrString envB) =
          btoa ((attrString envB).take 24) ++ btoa ((attrString envB).drop 24) := by
        conv_lhs => rw [← List.take_append_drop 24 (attrString envB)]
        exact btoa_append _ _ (by rw [h24B])
      rw [hsplitA, hsplitB,
        List.take_left' (by rw [btoa_length _ (by rw [h24A]), h24A]),
        List.take_left' (by rw [btoa_length _ (by rw [h24B]), h24B]), h]
    · push_neg at hlen
      have heq : attrString envA = attrString envB := by
        have hlt := congrArg List.length h
        rw [List.length_take, List.length_take] at hlt
        have hA : (attrString envA).take 24 = attrString envA :=
          List.take_of_length_le (by omega)
        have hB : (attrString envB).take 24 = attrString envB :=
          List.take_of_length_le (by omega)
        rw [← hA, h, hB]
      rw [heq]
  exact ⟨hfp, fun salt => by rw [hfp]⟩

/-- Witness for C10: two environments whose user agents share the first 24
bytes but then differ; fingerprints and derived keys coincide. -/
theorem getDeviceFingerprint_take24_agreement_witness :
    getDeviceFingerprint (Env.mk (List.range 25) [101] 800 600) =
        getDeviceFingerprint (Env.mk (List.range 24 ++ [99]) [102] 640 480) ∧
      deriveKey (getDeviceFingerprint (Env.mk (List.range 25) [101] 800 600)) (List.range 16) =
        deriveKey (getDeviceFingerprint (Env.mk (List.range 24 ++ [99]) [102] 640 480))
          (List.range 16) :=
  ⟨(getDeviceFingerprint_take24_agreement (Env.mk (List.range 25) [101] 800 600)
      (Env.mk (List.range 24 ++ [99]) [102] 640 480) (by decide)).1,
    (getDeviceFingerprint_take24_agreement (Env.mk (List.range 25) [101] 800 600)
      (Env.mk (List.range 24 ++ [99]) [102] 640 480) (by decide)).2 (List.range 16)⟩

end LibertyLM
